import Mathlib

/-!
Verification development for `netrd/reconstruction/thouless_anderson_palmer.py`.

The source file implements `cross_cov` and
`ThoulessAndersonPalmerReconstructor.fit`: from an (N, T) time series it
estimates moments, builds a naive mean-field coupling matrix by matrix
inversion, runs a per-node fixed-step grid scan for a TAP correction factor,
and assembles the corrected coupling matrix `W`.

The embedding below works over `ℚ` (exact arithmetic standing for the
real-valued computation; note that `int(0.33/0.001) + 2` evaluates to `332`
both in IEEE doubles and in exact rationals, so the loop bound is identical).
Matrices are Mathlib matrices over `Fin`-indexed types; `np.linalg.inv` is
embedded as `invQ M = (det M)⁻¹ • adjugate M`, which agrees with Mathlib's
`M⁻¹` (lemma `invQ_eq_inv`), and the `LinAlgError` raised by `linalg.inv` on
a singular matrix is modelled by the `Except` wrapper `fitE`.
-/

namespace Netrd

/-- Column mean of a matrix, `np.mean(a, axis=0)`. -/
def colMean {R S : ℕ} (a : Matrix (Fin R) (Fin S) ℚ) (j : Fin S) : ℚ :=
  (∑ t, a t j) / (R : ℚ)

/-- `cross_cov(a, b)` from the source: center both arguments by their column
means and return `np.matmul(da.T, db) / a.shape[0]` entrywise.  The divisor
is the number of rows `R` of the first argument. -/
def cross_cov {R S : ℕ} (a b : Matrix (Fin R) (Fin S) ℚ) :
    Matrix (Fin S) (Fin S) ℚ :=
  Matrix.of fun p q =>
    (∑ t, (a t p - colMean a p) * (b t q - colMean b q)) / (R : ℚ)

/-- `np.cov(a, rowvar=False, bias=True)`: population covariance of the
columns of `a`, divisor = number of observations (rows). -/
def covBias {R S : ℕ} (a : Matrix (Fin R) (Fin S) ℚ) :
    Matrix (Fin S) (Fin S) ℚ :=
  Matrix.of fun p q =>
    (∑ t, (a t p - colMean a p) * (a t q - colMean a q)) / (R : ℚ)

/-- Embedding of `scipy.linalg.inv` for a nonsingular matrix:
`(det M)⁻¹ • adjugate M`, the true inverse (see `invQ_eq_inv`). -/
def invQ {n : ℕ} (M : Matrix (Fin n) (Fin n) ℚ) : Matrix (Fin n) (Fin n) ℚ :=
  (M.det)⁻¹ • M.adjugate

/-- `m = np.mean(ts, axis=1)`: per-node temporal mean. -/
def m {N T : ℕ} (ts : Matrix (Fin N) (Fin T) ℚ) (i : Fin N) : ℚ :=
  (∑ t, ts i t) / (T : ℚ)

/-- The vector `1 - m**2` (called `A` in the source before being made
diagonal). -/
def Avec {N T : ℕ} (ts : Matrix (Fin N) (Fin T) ℚ) (i : Fin N) : ℚ :=
  1 - (m ts i) ^ 2

/-- `A = np.diag(1 - m**2)`. -/
def A {N T : ℕ} (ts : Matrix (Fin N) (Fin T) ℚ) : Matrix (Fin N) (Fin N) ℚ :=
  Matrix.diagonal (Avec ts)

/-- `A_inv = np.diag(1/A)`. -/
def A_inv {N T : ℕ} (ts : Matrix (Fin N) (Fin T) ℚ) :
    Matrix (Fin N) (Fin N) ℚ :=
  Matrix.diagonal fun i => 1 / Avec ts i

/-- `ds = ts.T - m`: mean-centered series, shape (T, N). -/
def ds {N T : ℕ} (ts : Matrix (Fin N) (Fin T) ℚ) : Matrix (Fin T) (Fin N) ℚ :=
  Matrix.of fun t i => ts i t - m ts i

/-- `C = np.cov(ds, rowvar=False, bias=True)`. -/
def C {N T : ℕ} (ts : Matrix (Fin N) (Fin T) ℚ) : Matrix (Fin N) (Fin N) ℚ :=
  covBias (ds ts)

/-- `C_inv = linalg.inv(C)`. -/
def C_inv {N T : ℕ} (ts : Matrix (Fin N) (Fin T) ℚ) :
    Matrix (Fin N) (Fin N) ℚ :=
  invQ (C ts)

/-- Index map realising the column slice `ts[:, 1:]`. -/
def tailIdx {T : ℕ} (t : Fin (T - 1)) : Fin T :=
  ⟨t.1 + 1, by have := t.2; omega⟩

/-- Index map realising the row slice `ds[:-1]`. -/
def initIdx {T : ℕ} (t : Fin (T - 1)) : Fin T :=
  ⟨t.1, by have := t.2; omega⟩

/-- `s1 = ts[:, 1:]`: drop the first observation column. -/
def s1 {N T : ℕ} (ts : Matrix (Fin N) (Fin T) ℚ) :
    Matrix (Fin N) (Fin (T - 1)) ℚ :=
  Matrix.of fun i t => ts i (tailIdx t)

/-- `np.mean(s1, axis=1)`: per-node mean of the delayed slice. -/
def m1 {N T : ℕ} (ts : Matrix (Fin N) (Fin T) ℚ) (i : Fin N) : ℚ :=
  (∑ t, s1 ts i t) / ((T - 1 : ℕ) : ℚ)

/-- `ds1 = s1.T - np.mean(s1, axis=1)`, shape (T-1, N). -/
def ds1 {N T : ℕ} (ts : Matrix (Fin N) (Fin T) ℚ) :
    Matrix (Fin (T - 1)) (Fin N) ℚ :=
  Matrix.of fun t i => s1 ts i t - m1 ts i

/-- `ds[:-1]`: the first T-1 rows of `ds`. -/
def dsInit {N T : ℕ} (ts : Matrix (Fin N) (Fin T) ℚ) :
    Matrix (Fin (T - 1)) (Fin N) ℚ :=
  Matrix.of fun t i => ds ts (initIdx t) i

/-- `D = cross_cov(ds1, ds[:-1])`: lagged cross-covariance. -/
def D {N T : ℕ} (ts : Matrix (Fin N) (Fin T) ℚ) : Matrix (Fin N) (Fin N) ℚ :=
  cross_cov (ds1 ts) (dsInit ts)

/-- `B = np.dot(D, C_inv)`. -/
def B {N T : ℕ} (ts : Matrix (Fin N) (Fin T) ℚ) : Matrix (Fin N) (Fin N) ℚ :=
  D ts * C_inv ts

/-- `W_NMF = np.dot(A_inv, B)`: naive mean-field coupling matrix. -/
def W_NMF {N T : ℕ} (ts : Matrix (Fin N) (Fin T) ℚ) :
    Matrix (Fin N) (Fin N) ℚ :=
  A_inv ts * B ts

/-- `step = 0.001`. -/
def step : ℚ := 1 / 1000

/-- `nloop = int(0.33/step) + 2` (truncation of a positive value is the
floor; the value is exactly `330 + 2 = 332`, see `nloop_eq`). -/
def nloop : ℕ := (⌊(33 / 100 : ℚ) / step⌋).toNat + 2

/-- `W2_NMF = W_NMF**2` (elementwise square). -/
def W2_NMF {N T : ℕ} (ts : Matrix (Fin N) (Fin T) ℚ) :
    Matrix (Fin N) (Fin N) ℚ :=
  Matrix.of fun i j => (W_NMF ts i j) ^ 2

/-- `temp[i] = (1 - m[i]**2) * np.sum(W2_NMF[i,:] * (1 - m[:]**2))`. -/
def temp {N T : ℕ} (ts : Matrix (Fin N) (Fin T) ℚ) (i : Fin N) : ℚ :=
  (1 - (m ts i) ^ 2) * ∑ j, W2_NMF ts i j * (1 - (m ts j) ^ 2)

/-- The loop body's `y` at grid index `k`: `x*(1-x)**2 - temp` with
`x = k*step`. -/
def yGrid (tmp : ℚ) (k : ℕ) : ℚ :=
  (k : ℚ) * step * (1 - (k : ℚ) * step) ^ 2 - tmp

/-- The `while y < 0 and iloop < nloop` loop of `fit`, instrumented with an
iteration counter.  State: remaining fuel, `iloop`, `x`, `y`; returns the
final `x` together with the number of executed loop bodies.  The fuel is an
upper bound on the remaining iterations; with initial fuel `nloop + 1` it
never runs out before the loop condition fails (each body consumes one unit
and increments `iloop`, and the condition requires `iloop < nloop`). -/
def tapWhileC (tmp : ℚ) : ℕ → ℕ → ℚ → ℚ → ℚ × ℕ
  | 0, _, x, _ => (x, 0)
  | fuel + 1, iloop, x, y =>
    if y < 0 ∧ iloop < nloop then
      let p := tapWhileC tmp fuel (iloop + 1) ((iloop : ℚ) * step)
        ((iloop : ℚ) * step * (1 - (iloop : ℚ) * step) ^ 2 - tmp)
      (p.1, p.2 + 1)
    else (x, 0)

/-- The value `F[i]` computed by the scan for a given `temp[i]`
(initial state `y = -1`, `iloop = 0`; `x` is unset before the loop in the
source, and the first body always executes, so its initial value is
irrelevant). -/
def tapF (tmp : ℚ) : ℚ := (tapWhileC tmp (nloop + 1) 0 0 (-1)).1

/-- Number of loop-body executions of the scan for a given `temp[i]`. -/
def tapCount (tmp : ℚ) : ℕ := (tapWhileC tmp (nloop + 1) 0 0 (-1)).2

/-- The correction vector `F`. -/
def F {N T : ℕ} (ts : Matrix (Fin N) (Fin T) ℚ) (i : Fin N) : ℚ :=
  tapF (temp ts i)

/-- `A_TAP[i] = A[i,i] * (1 - F[i])`. -/
def A_TAP {N T : ℕ} (ts : Matrix (Fin N) (Fin T) ℚ) (i : Fin N) : ℚ :=
  A ts i i * (1 - F ts i)

/-- `A_TAP_inv = np.diag(1 / A_TAP)`. -/
def A_TAP_inv {N T : ℕ} (ts : Matrix (Fin N) (Fin T) ℚ) :
    Matrix (Fin N) (Fin N) ℚ :=
  Matrix.diagonal fun i => 1 / A_TAP ts i

/-- `W = np.dot(A_TAP_inv, B)`: the final coupling matrix stored in
`self.results['matrix']`. -/
def W {N T : ℕ} (ts : Matrix (Fin N) (Fin T) ℚ) : Matrix (Fin N) (Fin N) ℚ :=
  A_TAP_inv ts * B ts

/-- Fallible view of `fit`: `scipy.linalg.inv` raises `LinAlgError` exactly
when its argument is singular, i.e. has determinant zero; the rest of the
pipeline is exception-free numeric code. -/
def fitE {N T : ℕ} (ts : Matrix (Fin N) (Fin T) ℚ) :
    Except Unit (Matrix (Fin N) (Fin N) ℚ) :=
  if (C ts).det = 0 then Except.error () else Except.ok (W ts)

/-- The lagged cross-covariance formula as the specification words it
(claim C3): aligned sum divided by the full series length `T`, with the
second factor centered by the mean of the full column `ds[:,q]`. -/
def D_specFormula {N T : ℕ} (ts : Matrix (Fin N) (Fin T) ℚ)
    (p q : Fin N) : ℚ :=
  (∑ t, (ds1 ts t p - colMean (ds1 ts) p) *
      (ds ts (initIdx t) q - colMean (ds ts) q)) / (T : ℚ)

/-- Concrete 2-node, 3-observation series whose node 0 has a constant
delayed slice, hence a zero row of `D` and `temp[0] = 0`. -/
def ts0 : Matrix (Fin 2) (Fin 3) ℚ :=
  Matrix.of fun i t =>
    if i.1 = 0 then (if t.1 = 0 then 1 / 2 else 0)
    else (if t.1 = 1 then 1 / 2 else 0)

/-- Concrete 1-node, 3-observation series with a nonzero lagged
cross-covariance, separating the `T` and `T-1` divisors. -/
def ts3 : Matrix (Fin 1) (Fin 3) ℚ :=
  Matrix.of fun _ t => if t.1 = 1 then 1 else 0

/-- Concrete 1-node, 1-observation series (fewer than 2 time points). -/
def ts8 : Matrix (Fin 1) (Fin 1) ℚ :=
  Matrix.of fun _ _ => 5

/-- Concrete 2-node, 4-observation series with zero off-diagonal equal-time
covariance and zero off-diagonal lagged cross-covariance, invertible `C`,
and means strictly inside (-1, 1). -/
def ts9 : Matrix (Fin 2) (Fin 4) ℚ :=
  Matrix.of fun i t =>
    if i.1 = 0 then
      (if t.1 = 0 then 1 / 2 else if t.1 = 1 then 1 / 2 else
        if t.1 = 2 then 1 else 0)
    else (if t.1 = 0 then 1 else 0)

/-! ### Basic facts about the embedded definitions -/

theorem nloop_eq : nloop = 332 := by
  have h1 : (33 / 100 : ℚ) / step = ((330 : ℤ) : ℚ) := by norm_num [step]
  rw [nloop, h1, Int.floor_intCast]
  rfl

theorem invQ_eq_inv {n : ℕ} (M : Matrix (Fin n) (Fin n) ℚ) : invQ M = M⁻¹ := by
  rw [invQ, Matrix.inv_def, Ring.inverse_eq_inv]

theorem tw_zero (tmp : ℚ) (iloop : ℕ) (x y : ℚ) :
    tapWhileC tmp 0 iloop x y = (x, 0) := rfl

theorem tw_succ_pos (tmp : ℚ) (fuel iloop : ℕ) (x y : ℚ)
    (h : y < 0 ∧ iloop < nloop) :
    tapWhileC tmp (fuel + 1) iloop x y =
      ((tapWhileC tmp fuel (iloop + 1) ((iloop : ℚ) * step) (yGrid tmp iloop)).1,
        (tapWhileC tmp fuel (iloop + 1) ((iloop : ℚ) * step)
          (yGrid tmp iloop)).2 + 1) := by
  simp only [tapWhileC, yGrid, if_pos h]

theorem tw_succ_neg (tmp : ℚ) (fuel iloop : ℕ) (x y : ℚ)
    (h : ¬(y < 0 ∧ iloop < nloop)) :
    tapWhileC tmp (fuel + 1) iloop x y = (x, 0) := by
  simp only [tapWhileC, if_neg h]

/-- If the first grid index `k0 < nloop` with `y ≥ 0` exists, the loop stops
there: final `x = k0 * step`, having executed `k0 + 1 - iloop` bodies. -/
theorem tw_finds (tmp : ℚ) (k0 : ℕ) (hk : k0 < nloop)
    (h0 : 0 ≤ yGrid tmp k0) (hprev : ∀ j, j < k0 → yGrid tmp j < 0) :
    ∀ fuel iloop x y, iloop + fuel = nloop + 1 → iloop ≤ k0 → y < 0 →
      tapWhileC tmp fuel iloop x y = ((k0 : ℚ) * step, k0 + 1 - iloop) := by
  intro fuel
  induction fuel with
  | zero => intro iloop x y hfi hik hy; exact absurd hfi (by omega)
  | succ fuel ih =>
    intro iloop x y hfi hik hy
    rw [tw_succ_pos tmp fuel iloop x y ⟨hy, lt_of_le_of_lt hik hk⟩]
    rcases Nat.lt_or_ge iloop k0 with hlt | hge
    · rw [ih (iloop + 1) ((iloop : ℚ) * step) (yGrid tmp iloop) (by omega)
        (by omega) (hprev iloop hlt)]
      simp only [Prod.mk.injEq]
      exact ⟨trivial, by omega⟩
    · have hik0 : iloop = k0 := le_antisymm hik hge
      subst hik0
      obtain ⟨f, rfl⟩ : ∃ f, fuel = f + 1 := ⟨fuel - 1, by omega⟩
      rw [tw_succ_neg tmp f (iloop + 1) ((iloop : ℚ) * step) (yGrid tmp iloop)
        (fun hc => absurd hc.1 (not_lt.2 h0))]
      simp only [Prod.mk.injEq]
      exact ⟨trivial, by omega⟩

/-- If no scanned grid index satisfies `y ≥ 0`, the loop exhausts its
budget: final `x = (nloop - 1) * step`, having executed `nloop - iloop`
bodies. -/
theorem tw_exhaust (tmp : ℚ) (hall : ∀ j, j < nloop → yGrid tmp j < 0) :
    ∀ fuel iloop x y, iloop + fuel = nloop + 1 → iloop < nloop → y < 0 →
      tapWhileC tmp fuel iloop x y =
        (((nloop - 1 : ℕ) : ℚ) * step, nloop - iloop) := by
  intro fuel
  induction fuel with
  | zero => intro iloop x y hfi hik hy; exact absurd hfi (by omega)
  | succ fuel ih =>
    intro iloop x y hfi hik hy
    rw [tw_succ_pos tmp fuel iloop x y ⟨hy, hik⟩]
    rcases Nat.lt_or_ge (iloop + 1) nloop with hlt | hge
    · rw [ih (iloop + 1) ((iloop : ℚ) * step) (yGrid tmp iloop) (by omega)
        hlt (hall iloop hik)]
      simp only [Prod.mk.injEq]
      exact ⟨trivial, by omega⟩
    · have hf : fuel = 1 := by omega
      subst hf
      rw [tw_succ_neg tmp 0 (iloop + 1) ((iloop : ℚ) * step) (yGrid tmp iloop)
        (fun hc => absurd hc.2 (by omega))]
      have hi : nloop - 1 = iloop := by omega
      rw [← hi]
      simp only [Prod.mk.injEq]
      exact ⟨trivial, by omega⟩

/-- The loop never executes more than `nloop - iloop` bodies. -/
theorem tw_count_le (tmp : ℚ) :
    ∀ fuel iloop x y, (tapWhileC tmp fuel iloop x y).2 ≤ nloop - iloop := by
  intro fuel
  induction fuel with
  | zero => intro iloop x y; exact Nat.zero_le _
  | succ fuel ih =>
    intro iloop x y
    by_cases h : y < 0 ∧ iloop < nloop
    · rw [tw_succ_pos tmp fuel iloop x y h]
      have hr := ih (iloop + 1) ((iloop : ℚ) * step) (yGrid tmp iloop)
      change (tapWhileC tmp fuel (iloop + 1) ((iloop : ℚ) * step)
        (yGrid tmp iloop)).2 + 1 ≤ nloop - iloop
      omega
    · rw [tw_succ_neg tmp fuel iloop x y h]
      exact Nat.zero_le _

/-- Characterization of the scan when the first crossing exists. -/
theorem tapF_finds (tmp : ℚ) (k0 : ℕ) (hk : k0 < nloop)
    (h0 : 0 ≤ yGrid tmp k0) (hprev : ∀ j, j < k0 → yGrid tmp j < 0) :
    tapF tmp = (k0 : ℚ) * step ∧ tapCount tmp = k0 + 1 := by
  have h := tw_finds tmp k0 hk h0 hprev (nloop + 1) 0 0 (-1) (by omega)
    (Nat.zero_le _) (by norm_num)
  constructor
  · simp only [tapF]; rw [h]
  · simp only [tapCount]; rw [h]; simp

/-- Characterization of the scan when no scanned grid value crosses. -/
theorem tapF_exhaust (tmp : ℚ) (hall : ∀ j, j < nloop → yGrid tmp j < 0) :
    tapF tmp = ((nloop - 1 : ℕ) : ℚ) * step ∧ tapCount tmp = nloop := by
  have hn : 0 < nloop := by rw [nloop_eq]; omega
  have h := tw_exhaust tmp hall (nloop + 1) 0 0 (-1) (by omega) hn
    (by norm_num)
  constructor
  · simp only [tapF]; rw [h]
  · simp only [tapCount]; rw [h]; simp

/-- For a nonpositive `temp` the very first grid value `x = 0` already has
`y = -temp ≥ 0`: the loop exits after one body with `F = 0`. -/
theorem tapF_nonpos (tmp : ℚ) (h : tmp ≤ 0) :
    tapF tmp = 0 ∧ tapCount tmp = 1 := by
  have hk : 0 < nloop := by rw [nloop_eq]; omega
  have h0 : 0 ≤ yGrid tmp 0 := by
    simp only [yGrid]
    push_cast
    nlinarith [h]
  have := tapF_finds tmp 0 hk h0 (fun j hj => absurd hj (Nat.not_lt_zero j))
  constructor
  · rw [this.1]; norm_num
  · exact this.2

/-- Every scan result is a grid value `k * step` with `k ≤ nloop - 1`. -/
theorem tapF_grid (tmp : ℚ) : ∃ k ≤ nloop - 1, tapF tmp = (k : ℚ) * step := by
  by_cases h : ∃ k, k < nloop ∧ 0 ≤ yGrid tmp k
  · obtain ⟨hlt, hy⟩ := Nat.find_spec h
    refine ⟨Nat.find h, by omega, ?_⟩
    have hprev : ∀ j, j < Nat.find h → yGrid tmp j < 0 := by
      intro j hj
      have hmin := Nat.find_min h hj
      push_neg at hmin
      exact hmin (by omega)
    exact (tapF_finds tmp (Nat.find h) hlt hy hprev).1
  · push_neg at h
    exact ⟨nloop - 1, le_refl _, (tapF_exhaust tmp h).1⟩

/-! ### Scalar views of the matrix pipeline -/

theorem B_apply {N T : ℕ} (ts : Matrix (Fin N) (Fin T) ℚ) (i j : Fin N) :
    B ts i j = ∑ k, D ts i k * C_inv ts k j := by
  simp only [B, Matrix.mul_apply]

theorem W_NMF_apply {N T : ℕ} (ts : Matrix (Fin N) (Fin T) ℚ) (i j : Fin N) :
    W_NMF ts i j = B ts i j / Avec ts i := by
  simp only [W_NMF, A_inv]
  rw [Matrix.diagonal_mul, one_div_mul_eq_div]

theorem W_apply {N T : ℕ} (ts : Matrix (Fin N) (Fin T) ℚ) (i j : Fin N) :
    W ts i j = B ts i j / A_TAP ts i := by
  simp only [W, A_TAP_inv]
  rw [Matrix.diagonal_mul, one_div_mul_eq_div]

theorem A_diag {N T : ℕ} (ts : Matrix (Fin N) (Fin T) ℚ) (i : Fin N) :
    A ts i i = Avec ts i := by
  simp only [A]
  exact Matrix.diagonal_apply_eq _ i

/-- The columns of the centered series `ds` have mean zero. -/
theorem colMean_ds {N T : ℕ} (ts : Matrix (Fin N) (Fin T) ℚ) (p : Fin N) :
    colMean (ds ts) p = 0 := by
  simp only [colMean, ds, Matrix.of_apply, Finset.sum_sub_distrib,
    Finset.sum_const, Finset.card_univ, Fintype.card_fin, nsmul_eq_mul]
  rcases Nat.eq_zero_or_pos T with h0 | hT
  · subst h0; simp
  · have hT' : ((T : ℕ) : ℚ) ≠ 0 := by
      have : (0 : ℚ) < (T : ℚ) := by exact_mod_cast hT
      exact ne_of_gt this
    rw [m]
    field_simp

/-- `x (1-x)^2` is monotone on the scanned range `[0, 0.331]`. -/
theorem gMono (a : ℚ) (h0 : 0 ≤ a) (h1 : a ≤ 331 / 1000) :
    a * (1 - a) ^ 2 ≤ (331 / 1000 : ℚ) * (1 - 331 / 1000) ^ 2 := by
  have hb : (0 : ℚ) ≤ 331 / 1000 - a := by linarith
  have hc : (0 : ℚ) ≤ 1338 / 1000 - a := by linarith
  nlinarith [mul_nonneg hb (mul_nonneg hb hc), hb]

/-- If `temp` exceeds the maximum of `x (1-x)^2` over the scanned grid
(attained at the last grid value `0.331`), every scanned `y` is negative. -/
theorem yGrid_all_neg (tmp : ℚ)
    (h : (331 / 1000 : ℚ) * (1 - 331 / 1000) ^ 2 < tmp) :
    ∀ j, j < nloop → yGrid tmp j < 0 := by
  intro j hj
  have hj' : j ≤ 331 := by rw [nloop_eq] at hj; omega
  have hj'' : ((j : ℕ) : ℚ) ≤ 331 := by exact_mod_cast hj'
  have ha0 : (0 : ℚ) ≤ (j : ℚ) * step := by
    rw [step]; positivity
  have ha1 : (j : ℚ) * step ≤ 331 / 1000 := by
    rw [step]; linarith
  have hg := gMono ((j : ℚ) * step) ha0 ha1
  rw [yGrid]
  linarith

/-! ### Claims -/

/-- C1: for every node `i`, the correction `F[i]` produced by `fit` is the
grid scan applied to `temp[i] = (1 - m[i]^2) * Σ_j W_NMF[i,j]^2 (1 - m[j]^2)`:
it equals the smallest grid value `x = k * 0.001` at which
`x (1-x)^2 - temp[i] ≥ 0`, and when no scanned grid value within the step
budget satisfies this it equals the last scanned grid value
`(nloop - 1) * step`, with no error raised (the function is total). -/
theorem tap_correction_first_grid_crossing {N T : ℕ}
    (ts : Matrix (Fin N) (Fin T) ℚ) (i : Fin N) :
    F ts i = tapF (temp ts i) ∧
    temp ts i
      = (1 - (m ts i) ^ 2) * ∑ j, (W_NMF ts i j) ^ 2 * (1 - (m ts j) ^ 2) ∧
    (∀ k, k < nloop → 0 ≤ yGrid (temp ts i) k →
      (∀ j, j < k → yGrid (temp ts i) j < 0) → F ts i = (k : ℚ) * step) ∧
    ((∀ k, k < nloop → yGrid (temp ts i) k < 0) →
      F ts i = ((nloop - 1 : ℕ) : ℚ) * step) := by
  refine ⟨rfl, rfl, ?_, ?_⟩
  · intro k hk h0 hprev
    exact (tapF_finds (temp ts i) k hk h0 hprev).1
  · intro hall
    exact (tapF_exhaust (temp ts i) hall).1

/-- C2: `fit` computes `B = D · C_inv`, `W_NMF = A_inv · B` (a row scaling
by `1/(1 - m[i]^2)`), assembles `A_TAP[i] = A[i,i] * (1 - F[i])`,
`A_TAP_inv = diag(1/A_TAP)`, and the final `W = A_TAP_inv · B`; in
particular `W` is the row rescaling of `B` by `1 / A_TAP[i]`. -/
theorem fit_pipeline_structure {N T : ℕ} (ts : Matrix (Fin N) (Fin T) ℚ) :
    B ts = D ts * C_inv ts ∧
    W_NMF ts = A_inv ts * B ts ∧
    (∀ i j, W_NMF ts i j = B ts i j / Avec ts i) ∧
    (∀ i, A_TAP ts i = Avec ts i * (1 - F ts i)) ∧
    W ts = A_TAP_inv ts * B ts ∧
    (∀ i j, W ts i j = B ts i j / A_TAP ts i) := by
  refine ⟨rfl, rfl, W_NMF_apply ts, ?_, rfl, W_apply ts⟩
  intro i
  rw [A_TAP, A_diag]

/-- C5: for every input time series and node, the scanned correction value
satisfies `0 ≤ F[i] ≤ 0.332`. -/
theorem F_bounded {N T : ℕ} (ts : Matrix (Fin N) (Fin T) ℚ) (i : Fin N) :
    0 ≤ F ts i ∧ F ts i ≤ 332 / 1000 := by
  obtain ⟨k, hk, hF⟩ := tapF_grid (temp ts i)
  rw [nloop_eq] at hk
  have hk' : ((k : ℕ) : ℚ) ≤ 331 := by exact_mod_cast hk
  constructor
  · simp only [F]; rw [hF, step]; positivity
  · simp only [F]; rw [hF, step]; linarith

/-- C6: the loop budget is `nloop = int(0.33/0.001) + 2 = 332`; for every
node the correction loop executes at most 332 bodies (and terminates, the
scan being a total function); and whenever `temp` exceeds the maximum of
`x (1-x)^2` over the scanned range (attained at the last grid value 0.331),
the loop runs exactly 332 iterations and the result lands at the final
scanned grid value 0.331. -/
theorem loop_budget_and_saturation :
    nloop = 332 ∧
    (∀ (N T : ℕ) (ts : Matrix (Fin N) (Fin T) ℚ) (i : Fin N),
      F ts i = tapF (temp ts i) ∧ tapCount (temp ts i) ≤ 332) ∧
    (∀ tmp : ℚ, (331 / 1000 : ℚ) * (1 - 331 / 1000) ^ 2 < tmp →
      tapCount tmp = 332 ∧ tapF tmp = 331 / 1000) := by
  refine ⟨nloop_eq, ?_, ?_⟩
  · intro _ _ ts i
    refine ⟨rfl, ?_⟩
    have h := tw_count_le (temp ts i) (nloop + 1) 0 0 (-1)
    have h2 : nloop - 0 = 332 := by rw [nloop_eq]
    simp only [tapCount]
    omega
  · intro tmp h
    have hall := yGrid_all_neg tmp h
    have hx := tapF_exhaust tmp hall
    refine ⟨by rw [hx.2, nloop_eq], ?_⟩
    rw [hx.1, nloop_eq, step]
    norm_num

/-- C7: the final matrix rescales the naive mean-field matrix row-wise by
the corrected susceptibilities: for `A[i] ≠ 0` and `F[i] ≠ 1`,
`W[i,j] = W_NMF[i,j] / (1 - F[i])`. -/
theorem W_rescales_W_NMF {N T : ℕ} (ts : Matrix (Fin N) (Fin T) ℚ)
    (i j : Fin N) (hA : Avec ts i ≠ 0) (hF : F ts i ≠ 1) :
    W ts i j = W_NMF ts i j / (1 - F ts i) := by
  rw [W_apply, W_NMF_apply, div_div, A_TAP, A_diag]

/-- C8: a 2-D input with fewer than 2 time points makes `fit` fail with an
error rather than return a result: for `T < 2` the biased covariance `C` is
the zero matrix, and `linalg.inv` raises on the singular matrix.  (An input
that is not a 2-D matrix is not expressible in the typed embedding: the
shape unpacking `N, t = np.shape(ts)` fails immediately on it.) -/
theorem fit_errors_on_short_series {N T : ℕ} (hN : 0 < N) (hT : T < 2)
    (ts : Matrix (Fin N) (Fin T) ℚ) :
    fitE ts = Except.error () := by
  have hC : C ts = 0 := by
    ext p q
    interval_cases T
    · simp [C, covBias]
    · simp [C, covBias, colMean, Fin.sum_univ_one]
  haveI : Nonempty (Fin N) := ⟨⟨0, hN⟩⟩
  simp [fitE, hC, Matrix.det_zero]

/-- C10: whenever `temp[i] ≤ 0` (in particular when row `i` of `W_NMF` is
all zeros), the correction loop exits on its very first iteration with
`F[i] = 0` exactly and no error; consequently `A_TAP[i] = A[i,i]` and row
`i` of `W` equals row `i` of `W_NMF`. -/
theorem nonpositive_temp_first_iteration {N T : ℕ}
    (ts : Matrix (Fin N) (Fin T) ℚ) (i : Fin N) :
    ((∀ j, W_NMF ts i j = 0) → temp ts i ≤ 0) ∧
    (temp ts i ≤ 0 →
      tapCount (temp ts i) = 1 ∧ F ts i = 0 ∧
      A_TAP ts i = A ts i i ∧ ∀ j, W ts i j = W_NMF ts i j) := by
  constructor
  · intro h
    simp [temp, W2_NMF, h]
  · intro h
    have hF := tapF_nonpos (temp ts i) h
    have hF0 : F ts i = 0 := hF.1
    refine ⟨hF.2, hF0, ?_, ?_⟩
    · rw [A_TAP, hF0]; ring
    · intro j
      rw [W_apply, W_NMF_apply, A_TAP, A_diag, hF0]
      rw [show (1 : ℚ) - 0 = 1 by norm_num, mul_one]

/-! ### Concrete evaluations -/

/-- The columns of `ds1` have mean zero (they are centered by `m1`). -/
theorem colMean_ds1 {N T : ℕ} (ts : Matrix (Fin N) (Fin T) ℚ) (p : Fin N) :
    colMean (ds1 ts) p = 0 := by
  simp only [colMean, ds1, Matrix.of_apply, Finset.sum_sub_distrib,
    Finset.sum_const, Finset.card_univ, Fintype.card_fin, nsmul_eq_mul, m1]
  rcases eq_or_ne (((T - 1 : ℕ)) : ℚ) 0 with hK | hK
  · rw [hK]
    simp
  · rw [mul_div_cancel₀ _ hK, sub_self, zero_div]

theorem C_apply {N T : ℕ} (ts : Matrix (Fin N) (Fin T) ℚ) (p q : Fin N) :
    C ts p q = (∑ t, ds ts t p * ds ts t q) / (T : ℚ) := by
  simp only [C, covBias, Matrix.of_apply, colMean_ds, sub_zero]

theorem D_apply {N T : ℕ} (ts : Matrix (Fin N) (Fin T) ℚ) (p q : Fin N) :
    D ts p q = (∑ t, ds1 ts t p *
      (dsInit ts t q - colMean (dsInit ts) q)) / ((T - 1 : ℕ) : ℚ) := by
  simp only [D, cross_cov, Matrix.of_apply, colMean_ds1, sub_zero]

theorem ts3_D00 : D ts3 0 0 = -(1 / 4) := by
  simp only [D, cross_cov, Matrix.of_apply, ds1, dsInit, s1, m1, ds, m,
    colMean, tailIdx, initIdx, ts3, Fin.sum_univ_succ, Fin.sum_univ_zero,
    Fin.val_succ, Fin.val_zero, Fin.val_one]
  norm_num

theorem ts3_specFormula : D_specFormula ts3 0 0 = -(1 / 6) := by
  simp only [D_specFormula, Matrix.of_apply, ds1, s1, m1, ds, m,
    colMean, tailIdx, initIdx, ts3, Fin.sum_univ_succ, Fin.sum_univ_zero,
    Fin.val_succ, Fin.val_zero, Fin.val_one]
  norm_num

/-- C3 counterexample: on the concrete 1-node series `ts3 = (0, 1, 0)` the
code's lagged cross-covariance is `-1/4` (divisor `T - 1 = 2`), while the
claimed formula with divisor `T = 3` gives `-1/6`. -/
theorem cross_cov_divisor_counterexample :
    D ts3 0 0 = -(1 / 4) ∧ D_specFormula ts3 0 0 = -(1 / 6) ∧
      D ts3 0 0 ≠ D_specFormula ts3 0 0 := by
  refine ⟨ts3_D00, ts3_specFormula, ?_⟩
  rw [ts3_D00, ts3_specFormula]
  norm_num

/-- C3 amended: every entry of `D` is the aligned-sample sum divided by
`T - 1` (the number of rows of `ds1`, i.e. `a.shape[0]` in `cross_cov`),
with both factors centered by the means over the `T - 1` aligned rows. -/
theorem cross_cov_divisor_amended {N T : ℕ} (ts : Matrix (Fin N) (Fin T) ℚ)
    (p q : Fin N) :
    D ts p q = (∑ t, (ds1 ts t p - colMean (ds1 ts) p) *
      (dsInit ts t q - colMean (dsInit ts) q)) / ((T - 1 : ℕ) : ℚ) := rfl

theorem ts0_m0 : m ts0 0 = 1 / 6 := by
  simp only [m, ts0, Matrix.of_apply, Fin.sum_univ_succ, Fin.sum_univ_zero,
    Fin.val_succ, Fin.val_zero, Fin.val_one]
  norm_num

theorem ts0_m1 : m ts0 1 = 1 / 6 := by
  simp only [m, ts0, Matrix.of_apply, Fin.sum_univ_succ, Fin.sum_univ_zero,
    Fin.val_succ, Fin.val_zero, Fin.val_one]
  norm_num

theorem ts0_ds1_col0 (t : Fin (3 - 1)) : ds1 ts0 t 0 = 0 := by
  simp only [ds1, Matrix.of_apply, s1, m1, ts0, tailIdx, Fin.sum_univ_succ,
    Fin.sum_univ_zero, Fin.val_succ, Fin.val_zero]
  norm_num

theorem ts0_D_row0 (q : Fin 2) : D ts0 0 q = 0 := by
  rw [D_apply, Finset.sum_eq_zero, zero_div]
  intro t _
  rw [ts0_ds1_col0, zero_mul]

theorem ts0_B_row0 (j : Fin 2) : B ts0 0 j = 0 := by
  rw [B_apply, Finset.sum_eq_zero]
  intro k _
  rw [ts0_D_row0, zero_mul]

theorem ts0_W_NMF_row0 (j : Fin 2) : W_NMF ts0 0 j = 0 := by
  rw [W_NMF_apply, ts0_B_row0, zero_div]

theorem ts0_temp0 : temp ts0 0 = 0 := by
  simp only [temp, W2_NMF, Matrix.of_apply]
  rw [Finset.sum_eq_zero, mul_zero]
  intro j _
  rw [ts0_W_NMF_row0]
  ring

theorem ts0_F0 : F ts0 0 = 0 := by
  show tapF (temp ts0 0) = 0
  rw [ts0_temp0]
  exact (tapF_nonpos 0 le_rfl).1

theorem ts0_detC : (C ts0).det = 1 / 432 := by
  have e00 : C ts0 0 0 = 1 / 18 := by
    simp only [C_apply, ds, m, Matrix.of_apply, ts0, Fin.sum_univ_succ,
      Fin.sum_univ_zero, Fin.val_succ, Fin.val_zero, Fin.val_one]
    norm_num
  have e01 : C ts0 0 1 = -(1 / 36) := by
    simp only [C_apply, ds, m, Matrix.of_apply, ts0, Fin.sum_univ_succ,
      Fin.sum_univ_zero, Fin.val_succ, Fin.val_zero, Fin.val_one]
    norm_num
  have e10 : C ts0 1 0 = -(1 / 36) := by
    simp only [C_apply, ds, m, Matrix.of_apply, ts0, Fin.sum_univ_succ,
      Fin.sum_univ_zero, Fin.val_succ, Fin.val_zero, Fin.val_one]
    norm_num
  have e11 : C ts0 1 1 = 1 / 18 := by
    simp only [C_apply, ds, m, Matrix.of_apply, ts0, Fin.sum_univ_succ,
      Fin.sum_univ_zero, Fin.val_succ, Fin.val_zero, Fin.val_one]
    norm_num
  rw [Matrix.det_fin_two, e00, e01, e10, e11]
  norm_num

/-- C4 counterexample: the concrete series `ts0` is accepted by `fit`
(both means strictly inside (-1, 1), invertible `C`), yet `F[0] = 0`
exactly, which is not strictly inside the open interval (0, 1). -/
theorem F_open_interval_counterexample :
    |m ts0 0| < 1 ∧ |m ts0 1| < 1 ∧ (C ts0).det ≠ 0 ∧ F ts0 0 = 0 ∧
      ¬(0 < F ts0 0 ∧ F ts0 0 < 1) := by
  refine ⟨?_, ?_, ?_, ts0_F0, ?_⟩
  · rw [ts0_m0, abs_lt]; constructor <;> norm_num
  · rw [ts0_m1, abs_lt]; constructor <;> norm_num
  · rw [ts0_detC]; norm_num
  · rw [ts0_F0]; intro h; exact absurd h.1 (lt_irrefl 0)

/-- C4 amended: for every input the correction entries lie in the half-open
interval `[0, 1)`: `0 ≤ F[i] < 1`. -/
theorem F_range_half_open {N T : ℕ} (ts : Matrix (Fin N) (Fin T) ℚ)
    (i : Fin N) : 0 ≤ F ts i ∧ F ts i < 1 := by
  obtain ⟨k, hk, hF⟩ := tapF_grid (temp ts i)
  rw [nloop_eq] at hk
  have hk' : ((k : ℕ) : ℚ) ≤ 331 := by exact_mod_cast hk
  constructor
  · simp only [F]; rw [hF, step]; positivity
  · simp only [F]; rw [hF, step]; linarith

theorem tap_correction_first_grid_crossing_witness :
    F ts0 0 = ((0 : ℕ) : ℚ) * step := by
  refine (tap_correction_first_grid_crossing ts0 0).2.2.1 0 ?_ ?_ ?_
  · rw [nloop_eq]; omega
  · rw [ts0_temp0]
    simp only [yGrid]
    norm_num
  · intro j hj; exact absurd hj (Nat.not_lt_zero j)

theorem W_rescales_W_NMF_witness :
    W ts0 0 1 = W_NMF ts0 0 1 / (1 - F ts0 0) := by
  refine W_rescales_W_NMF ts0 0 1 ?_ ?_
  · simp only [Avec]; rw [ts0_m0]; norm_num
  · rw [ts0_F0]; norm_num

theorem nonpositive_temp_first_iteration_witness :
    tapCount (temp ts0 0) = 1 ∧ F ts0 0 = 0 ∧ A_TAP ts0 0 = A ts0 0 0 ∧
      W ts0 0 1 = W_NMF ts0 0 1 := by
  have h := (nonpositive_temp_first_iteration ts0 0).2 (le_of_eq ts0_temp0)
  exact ⟨h.1, h.2.1, h.2.2.1, h.2.2.2 1⟩

theorem ts9_m0 : m ts9 0 = 1 / 2 := by
  simp only [m, ts9, Matrix.of_apply, Fin.sum_univ_succ, Fin.sum_univ_zero,
    Fin.val_succ, Fin.val_zero, Fin.val_one]
  norm_num

theorem ts9_m1 : m ts9 1 = 1 / 4 := by
  simp only [m, ts9, Matrix.of_apply, Fin.sum_univ_succ, Fin.sum_univ_zero,
    Fin.val_succ, Fin.val_zero, Fin.val_one]
  norm_num

theorem ts9_C01 : C ts9 0 1 = 0 := by
  simp only [C_apply, ds, m, Matrix.of_apply, ts9, Fin.sum_univ_succ,
    Fin.sum_univ_zero, Fin.val_succ, Fin.val_zero, Fin.val_one]
  norm_num

theorem ts9_C10 : C ts9 1 0 = 0 := by
  simp only [C_apply, ds, m, Matrix.of_apply, ts9, Fin.sum_univ_succ,
    Fin.sum_univ_zero, Fin.val_succ, Fin.val_zero, Fin.val_one]
  norm_num

theorem ts9_detC : (C ts9).det = 3 / 128 := by
  have e00 : C ts9 0 0 = 1 / 8 := by
    simp only [C_apply, ds, m, Matrix.of_apply, ts9, Fin.sum_univ_succ,
      Fin.sum_univ_zero, Fin.val_succ, Fin.val_zero, Fin.val_one]
    norm_num
  have e11 : C ts9 1 1 = 3 / 16 := by
    simp only [C_apply, ds, m, Matrix.of_apply, ts9, Fin.sum_univ_succ,
      Fin.sum_univ_zero, Fin.val_succ, Fin.val_zero, Fin.val_one]
    norm_num
  rw [Matrix.det_fin_two, e00, e11, ts9_C01, ts9_C10]
  norm_num

theorem ts9_ds1_col1 (t : Fin (4 - 1)) : ds1 ts9 t 1 = 0 := by
  simp only [ds1, Matrix.of_apply, s1, m1, ts9, tailIdx, Fin.sum_univ_succ,
    Fin.sum_univ_zero, Fin.val_succ, Fin.val_zero, Fin.val_one]
  norm_num

theorem ts9_D10 : D ts9 1 0 = 0 := by
  rw [D_apply, Finset.sum_eq_zero, zero_div]
  intro t _
  rw [ts9_ds1_col1, zero_mul]

theorem ts9_D01 : D ts9 0 1 = 0 := by
  simp only [D, cross_cov, Matrix.of_apply, ds1, dsInit, s1, m1, ds, m,
    colMean, tailIdx, initIdx, ts9, Fin.sum_univ_succ, Fin.sum_univ_zero,
    Fin.val_succ, Fin.val_zero, Fin.val_one]
  norm_num

/-- C9: for a 2-node series with zero off-diagonal equal-time covariance and
zero off-diagonal lagged cross-covariance (with `C` invertible and means
strictly inside (-1, 1)), the off-diagonal entries of the output `W` are 0:
`C_inv` inherits the zero off-diagonals through the adjugate, so the rows of
`B = D · C_inv` and hence of the row-rescaled `W` stay diagonal. -/
theorem zero_cross_cov_gives_zero_offdiag {T : ℕ}
    (ts : Matrix (Fin 2) (Fin T) ℚ)
    (hm0 : |m ts 0| < 1) (hm1 : |m ts 1| < 1) (hdet : (C ts).det ≠ 0)
    (hC01 : C ts 0 1 = 0) (hC10 : C ts 1 0 = 0)
    (hD01 : D ts 0 1 = 0) (hD10 : D ts 1 0 = 0) :
    W ts 0 1 = 0 ∧ W ts 1 0 = 0 := by
  have hCinv01 : C_inv ts 0 1 = 0 := by
    simp [C_inv, invQ, Matrix.adjugate_fin_two, Matrix.smul_apply, hC01]
  have hCinv10 : C_inv ts 1 0 = 0 := by
    simp [C_inv, invQ, Matrix.adjugate_fin_two, Matrix.smul_apply, hC10]
  have hB01 : B ts 0 1 = 0 := by
    rw [B_apply, Fin.sum_univ_two, hD01, hCinv01]
    ring
  have hB10 : B ts 1 0 = 0 := by
    rw [B_apply, Fin.sum_univ_two, hD10, hCinv10]
    ring
  exact ⟨by rw [W_apply, hB01, zero_div], by rw [W_apply, hB10, zero_div]⟩

theorem zero_cross_cov_gives_zero_offdiag_witness :
    W ts9 0 1 = 0 ∧ W ts9 1 0 = 0 := by
  refine zero_cross_cov_gives_zero_offdiag ts9 ?_ ?_ ?_ ts9_C01 ts9_C10
    ts9_D01 ts9_D10
  · rw [ts9_m0, abs_lt]; constructor <;> norm_num
  · rw [ts9_m1, abs_lt]; constructor <;> norm_num
  · rw [ts9_detC]; norm_num

theorem loop_budget_and_saturation_witness :
    tapCount 1 = 332 ∧ tapF 1 = 331 / 1000 :=
  loop_budget_and_saturation.2.2 1 (by norm_num)

theorem fit_errors_on_short_series_witness : fitE ts8 = Except.error () :=
  fit_errors_on_short_series (by norm_num) (by norm_num) ts8

end Netrd
